import Mathlib

/-!
Shallow embedding of the heads/hands combat game (src/game.py).

State is explicit: each Python method that mutates an object is a pure
function returning the updated record, and a method that can raise
`ArgumentError` returns `Except GameError _`.  Randomness (the d6 rolls and
the `random.randint` damage draw of `attack_target`) is passed in as an
explicit oracle.  Python `int` is modelled by `Int`; `isinstance` checks are
discharged by the Lean types.
-/

namespace HeadsHands

/-- The single error kind of the game, `ArgumentError`. -/
inductive GameError where
  | argumentError : String → GameError
deriving Repr, DecidableEq

/-- A combat participant: fields of `Creature.__init__` in src/game.py. -/
structure Creature where
  name : String
  attack : Int
  defense : Int
  max_health : Int
  health : Int
  damage_range : Int × Int
deriving Repr, DecidableEq

/-- `_check_stat` (src/game.py line 8): value must lie in `[1, 30]`. -/
def check_stat (value : Int) : Bool :=
  decide (1 ≤ value ∧ value ≤ 30)

/-- `_check_damage_range` (line 14): `a ≥ 1` and `a ≤ b`. -/
def check_damage_range (dmg : Int × Int) : Bool :=
  decide (1 ≤ dmg.1 ∧ dmg.1 ≤ dmg.2)

/-- `Creature.__init__` (lines 26-47): validates every stat, then builds the
creature with `health = max_health`. -/
def mkCreature (name : String) (attack defense max_health : Int)
    (damage_range : Int × Int) : Except GameError Creature :=
  if name = "" then
    .error (.argumentError "name must be a non-empty string")
  else if ¬ check_stat attack then
    .error (.argumentError "attack must be between 1 and 30")
  else if ¬ check_stat defense then
    .error (.argumentError "defense must be between 1 and 30")
  else if max_health ≤ 0 then
    .error (.argumentError "max_health must be a positive integer")
  else if ¬ check_damage_range damage_range then
    .error (.argumentError "damage_range values must be natural numbers with min <= max")
  else
    .ok ⟨name, attack, defense, max_health, max_health, damage_range⟩

/-- `Creature.is_alive` (line 49): `health > 0`. -/
def Creature.is_alive (c : Creature) : Bool :=
  decide (0 < c.health)

/-- `Creature.take_damage` (lines 52-55): rejects negative damage, then
`health = max(0, health - dmg)`. -/
def take_damage (c : Creature) (dmg : Int) : Except GameError Creature :=
  if dmg < 0 then
    .error (.argumentError "dmg must be a non-negative int")
  else
    .ok { c with health := max 0 (c.health - dmg) }

/-- The source of randomness used by `attack_target`: `d6 i` is the i-th
`random.randint(1, 6)` roll and `draw lo hi` is `random.randint(lo, hi)`. -/
structure RandOracle where
  d6 : Nat → Int
  draw : Int → Int → Int

/-- The oracle behaves like Python's `random.randint`: every d6 roll is in
`[1, 6]` and every draw from a nonempty range lies inside it. -/
def RandOracle.Valid (o : RandOracle) : Prop :=
  (∀ i, 1 ≤ o.d6 i ∧ o.d6 i ≤ 6) ∧
  (∀ lo hi : Int, lo ≤ hi → lo ≤ o.draw lo hi ∧ o.draw lo hi ≤ hi)

/-- `dice_count = max(1, self.attack - other.defense + 1)` (lines 68-69). -/
def dice_count (self other : Creature) : Int :=
  max 1 (self.attack - other.defense + 1)

/-- `rolls = [self._roll_d6() for _ in range(dice_count)]` (line 70). -/
def attack_rolls (self other : Creature) (o : RandOracle) : List Int :=
  (List.range (dice_count self other).toNat).map o.d6

/-- `success = any(r >= 5 for r in rolls)` (line 71). -/
def attack_success (self other : Creature) (o : RandOracle) : Bool :=
  (attack_rolls self other o).any fun r => decide (5 ≤ r)

/-- `dmg = random.randint(self.damage_range[0], self.damage_range[1])`
(line 74). -/
def attack_damage (self : Creature) (o : RandOracle) : Int :=
  o.draw self.damage_range.1 self.damage_range.2

/-- `Creature.attack_target` (lines 60-78).  Returns the `(hit, damage)`
pair of the source together with the post-states of attacker and defender
(the `isinstance(other, Creature)` check is discharged by the type). -/
def attack_target (self other : Creature) (o : RandOracle) :
    Except GameError ((Bool × Int) × Creature × Creature) :=
  if ¬ self.is_alive then
    .error (.argumentError "dead creatures cannot attack")
  else if ¬ other.is_alive then
    .error (.argumentError "cannot attack a dead creature")
  else if attack_success self other o then
    match take_damage other (attack_damage self o) with
    | .error e => .error e
    | .ok other' => .ok ((true, attack_damage self o), self, other')
  else
    .ok ((false, 0), self, other)

/-- `Player` (lines 86-92): a `Creature` plus the `_heals_used` counter. -/
structure Player extends Creature where
  heals_used : Int
deriving Repr, DecidableEq

/-- `Player.MAX_HEALS` (line 87). -/
def MAX_HEALS : Int := 4

/-- `Player.__init__` (lines 90-92): builds the creature, `_heals_used = 0`. -/
def mkPlayer (name : String) (attack defense max_health : Int)
    (damage_range : Int × Int) : Except GameError Player :=
  (mkCreature name attack defense max_health damage_range).map
    fun c => { toCreature := c, heals_used := 0 }

/-- The healing amount of `Player.heal` (lines 100-102): `int(max_health *
0.3)` idealised as the exact floor `3 * max_health / 10`, clamped up to 1
when `≤ 0`.  The source's binary64 float computation is modelled faithfully
by `heal_amount_float` below; the two agree for `max_health ≤ 2 ^ 51` but
not for every larger valid `max_health`. -/
def heal_amount (p : Player) : Int :=
  if 3 * p.max_health / 10 ≤ 0 then 1 else 3 * p.max_health / 10

/-- `new_health = min(self.max_health, self.health + amount)` (line 103). -/
def heal_new_health (p : Player) : Int :=
  min p.max_health (p.health + heal_amount p)

/-- `Player.heal` (lines 94-107).  Returns the restored amount
(`new_health - health`) together with the updated player. -/
def heal (p : Player) : Except GameError (Int × Player) :=
  if ¬ p.toCreature.is_alive then
    .error (.argumentError "dead player cannot heal")
  else if MAX_HEALS ≤ p.heals_used then
    .error (.argumentError "no heals left")
  else
    .ok (heal_new_health p - p.health,
      { toCreature := { p.toCreature with health := heal_new_health p },
        heals_used := p.heals_used + 1 })

/-- `Player.heals_left` (lines 109-110). -/
def heals_left (p : Player) : Int :=
  max 0 (MAX_HEALS - p.heals_used)

/-! ### Binary64 model of the heal amount

`Player.heal` computes `int(self.max_health * Player.HEAL_PERCENT)` in
Python float (IEEE binary64) arithmetic.  `rhe` and `roundDouble` model
round-to-nearest, ties-to-even at 53 bits of precision (overflow and
subnormals are ignored, being unreachable at the magnitudes involved), and
`heal_amount_float` is the resulting amount before clamping. -/

/-- Round a rational to the nearest integer, ties going to the even
neighbour. -/
def rhe (x : ℚ) : ℤ :=
  if x - ⌊x⌋ < 1/2 then ⌊x⌋
  else if 1/2 < x - ⌊x⌋ then ⌊x⌋ + 1
  else if ⌊x⌋ % 2 = 0 then ⌊x⌋ else ⌊x⌋ + 1

/-- Round a positive rational to 53 significant bits, nearest-even (IEEE
binary64); nonpositive inputs are mapped to 0. -/
def roundDouble (q : ℚ) : ℚ :=
  if q ≤ 0 then 0
  else (rhe (q / 2 ^ (Int.log 2 q - 52)) : ℚ) * 2 ^ (Int.log 2 q - 52)

/-- The binary64 value of the literal `0.3` (`Player.HEAL_PERCENT`,
line 88), as an exact rational. -/
def HEAL_PERCENT_double : ℚ := 5404319552844595 / 2 ^ 54

/-- `int(max_health * 0.3)` (line 100) computed as the source does: the
integer converted to binary64, multiplied by the binary64 value of `0.3`,
and the (nonnegative) product truncated to an integer. -/
def heal_amount_float (mh : Int) : Int :=
  ⌊roundDouble (roundDouble (mh : ℚ) * HEAL_PERCENT_double)⌋

/-! ### Sequences of operations

The spec's invariant claims quantify over arbitrary interleavings of the
mutating operations on one player.  `Op` is one call targeting the player,
`applyOp` runs it (a raised `ArgumentError` leaves the state unchanged, as
in the source every raise happens before any assignment). -/

/-- One mutating call targeting a given player. -/
inductive Op where
  | dmg (d : Int)
  | doHeal
  | attacked (attacker : Creature) (o : RandOracle)

/-- Run one call against the player; a call that raises leaves it unchanged. -/
def applyOp (p : Player) (op : Op) : Player :=
  match op with
  | .dmg d =>
      match take_damage p.toCreature d with
      | .ok c => { p with toCreature := c }
      | .error _ => p
  | .doHeal =>
      match heal p with
      | .ok (_, p') => p'
      | .error _ => p
  | .attacked a o =>
      match attack_target a p.toCreature o with
      | .ok (_, _, c') => { p with toCreature := c' }
      | .error _ => p

/-- Run a sequence of calls against the player, in order. -/
def runOps (p : Player) (ops : List Op) : Player :=
  ops.foldl applyOp p

/-- Run `heal` (keeping the state on a raise) `n` times. -/
def iterHeal (p : Player) : Nat → Player
  | 0 => p
  | n + 1 =>
      match heal (iterHeal p n) with
      | .ok (_, p') => p'
      | .error _ => iterHeal p n

/-- Apply `take_damage` for each amount in the list, in order (a raising
call leaves the creature unchanged). -/
def applyDamages (c : Creature) (ds : List Int) : Creature :=
  ds.foldl (fun c d =>
    match take_damage c d with
    | .ok c' => c'
    | .error _ => c) c

/-- Concrete oracle whose dice always show 5 and whose draws return the low
end of the range; used to instantiate theorems. -/
def hitOracle : RandOracle :=
  { d6 := fun _ => 5, draw := fun lo _ => lo }

/-- Concrete oracle whose dice always show 2 (every attack misses). -/
def missOracle : RandOracle :=
  { d6 := fun _ => 2, draw := fun lo _ => lo }

theorem hitOracle_valid : hitOracle.Valid :=
  ⟨fun _ => by simp [hitOracle], fun lo hi h => ⟨le_rfl, h⟩⟩

theorem missOracle_valid : missOracle.Valid :=
  ⟨fun _ => by simp [missOracle], fun lo hi h => ⟨le_rfl, h⟩⟩

/-- The health invariant of the spec: `0 ≤ health ≤ max_health`. -/
def HealthInv (c : Creature) : Prop :=
  0 ≤ c.health ∧ c.health ≤ c.max_health

/-- Concrete attacker used to instantiate theorems. -/
def cA : Creature := ⟨"A", 10, 8, 100, 100, (5, 12)⟩

/-- Concrete defender used to instantiate theorems. -/
def cB : Creature := ⟨"B", 7, 5, 40, 40, (3, 6)⟩

/-- Concrete player used to instantiate theorems. -/
def heroP : Player := ⟨⟨"Hero", 10, 8, 100, 100, (5, 12)⟩, 0⟩

theorem take_damage_ok (c : Creature) (d : Int) (hd : 0 ≤ d) :
    take_damage c d = .ok { c with health := max 0 (c.health - d) } := by
  rw [take_damage, if_neg (by omega)]

theorem applyDamages_health (c : Creature) (ds : List Int)
    (hc : 0 ≤ c.health) (hds : ∀ d ∈ ds, 0 ≤ d) :
    (applyDamages c ds).health = max 0 (c.health - ds.sum) ∧
    (applyDamages c ds).max_health = c.max_health := by
  induction ds generalizing c with
  | nil => simp [applyDamages]; omega
  | cons d ds ih =>
      have hd : 0 ≤ d := hds d (by simp)
      have hsum : 0 ≤ ds.sum := List.sum_nonneg fun x hx => hds x (by simp [hx])
      have hstep : applyDamages c (d :: ds) =
          applyDamages { c with health := max 0 (c.health - d) } ds := by
        rw [applyDamages, List.foldl_cons, take_damage_ok c d hd]
        rfl
      rw [hstep]
      obtain ⟨ih1, ih2⟩ :=
        ih { c with health := max 0 (c.health - d) } (by simp) (fun x hx => hds x (by simp [hx]))
      refine ⟨?_, ih2⟩
      rw [ih1]
      simp only [List.sum_cons]
      omega

theorem is_alive_true_iff (c : Creature) : c.is_alive = true ↔ 0 < c.health := by
  simp [Creature.is_alive]

theorem is_alive_false_iff (c : Creature) : c.is_alive = false ↔ c.health ≤ 0 := by
  simp [Creature.is_alive]

theorem heal_amount_pos (p : Player) : 1 ≤ heal_amount p := by
  rw [heal_amount]
  split <;> omega

/-- Successful `heal` characterised: it goes through exactly when the player
is alive with a heal left, and then produces the source's new state. -/
theorem heal_ok (p : Player) (ha : p.toCreature.is_alive = true)
    (hu : p.heals_used < MAX_HEALS) :
    heal p = .ok (heal_new_health p - p.health,
      { toCreature := { p.toCreature with health := heal_new_health p },
        heals_used := p.heals_used + 1 }) := by
  rw [heal, if_neg (by simp [ha]), if_neg (by omega)]

/-- Every `.ok` result of `attack_target` keeps the attacker unchanged and
either keeps the defender or applies a non-negative damage to it. -/
theorem attack_target_ok_cases (s t : Creature) (o : RandOracle)
    (res : Bool × Int) (s' t' : Creature)
    (h : attack_target s t o = .ok (res, s', t')) :
    s' = s ∧ (t' = t ∨ ∃ dmg : Int, 0 ≤ dmg ∧
      t' = { t with health := max 0 (t.health - dmg) }) := by
  rw [attack_target] at h
  split at h
  · cases h
  split at h
  · cases h
  split at h
  · by_cases hd : attack_damage s o < 0
    · rw [take_damage, if_pos hd] at h
      cases h
    · rw [take_damage_ok t (attack_damage s o) (by omega)] at h
      cases h
      exact ⟨rfl, .inr ⟨attack_damage s o, by omega, rfl⟩⟩
  · cases h
    exact ⟨rfl, .inl rfl⟩

/-- Each operation preserves the health invariant and `max_health`. -/
theorem applyOp_inv (p : Player) (op : Op) (h : HealthInv p.toCreature) :
    HealthInv (applyOp p op).toCreature ∧
    (applyOp p op).max_health = p.max_health := by
  obtain ⟨h0, h1⟩ := h
  cases op with
  | dmg d =>
      by_cases hd : d < 0
      · rw [applyOp, take_damage, if_pos hd]
        exact ⟨⟨h0, h1⟩, rfl⟩
      · rw [applyOp, take_damage_ok p.toCreature d (by omega)]
        exact ⟨⟨by simp, by simp; omega⟩, rfl⟩
  | doHeal =>
      by_cases ha : p.toCreature.is_alive = true
      · by_cases hu : p.heals_used < MAX_HEALS
        · rw [applyOp, heal_ok p ha hu]
          have := heal_amount_pos p
          refine ⟨⟨?_, ?_⟩, rfl⟩
          · simp [heal_new_health]
            omega
          · simp [heal_new_health]
        · rw [applyOp, heal, if_neg (by simp [ha]), if_pos (by omega)]
          exact ⟨⟨h0, h1⟩, rfl⟩
      · rw [applyOp, heal, if_pos (by simp_all)]
        exact ⟨⟨h0, h1⟩, rfl⟩
  | attacked a o =>
      rw [applyOp]
      cases hres : attack_target a p.toCreature o with
      | error e => exact ⟨⟨h0, h1⟩, rfl⟩
      | ok r =>
          obtain ⟨res, s', t'⟩ := r
          obtain ⟨-, ht'⟩ := attack_target_ok_cases a p.toCreature o res s' t' hres
          cases ht' with
          | inl he => rw [he]; exact ⟨⟨h0, h1⟩, rfl⟩
          | inr he =>
              obtain ⟨dmg, hd0, he⟩ := he
              rw [he]
              exact ⟨⟨by simp, by simp; omega⟩, rfl⟩

theorem runOps_inv (p : Player) (ops : List Op) (h : HealthInv p.toCreature) :
    HealthInv (runOps p ops).toCreature := by
  induction ops generalizing p with
  | nil => exact h
  | cons op ops ih =>
      rw [runOps, List.foldl_cons]
      exact ih (applyOp p op) (applyOp_inv p op h).1

/-- `mkCreature` succeeds only with the fully-validated creature. -/
theorem mkCreature_ok (name : String) (atk df mh : Int) (dr : Int × Int)
    (c : Creature) (h : mkCreature name atk df mh dr = .ok c) :
    c = ⟨name, atk, df, mh, mh, dr⟩ ∧ 0 < mh ∧
    check_stat atk = true ∧ check_stat df = true ∧
    check_damage_range dr = true := by
  rw [mkCreature] at h
  split at h
  · cases h
  split at h
  · cases h
  split at h
  · cases h
  split at h
  · cases h
  split at h
  · cases h
  cases h
  refine ⟨rfl, by omega, ?_, ?_, ?_⟩ <;> simp_all

/-- `mkPlayer` succeeds only with the fully-validated player. -/
theorem mkPlayer_ok (name : String) (atk df mh : Int) (dr : Int × Int)
    (p : Player) (h : mkPlayer name atk df mh dr = .ok p) :
    p.toCreature = ⟨name, atk, df, mh, mh, dr⟩ ∧ 0 < mh ∧ p.heals_used = 0 ∧
    check_stat atk = true ∧ check_stat df = true ∧
    check_damage_range dr = true := by
  rw [mkPlayer] at h
  cases hres : mkCreature name atk df mh dr with
  | error e => rw [hres] at h; cases h
  | ok c =>
      rw [hres] at h
      simp only [Except.map] at h
      obtain ⟨hc, hmh, h3, h4, h5⟩ := mkCreature_ok name atk df mh dr c hres
      cases h
      exact ⟨hc, hmh, rfl, h3, h4, h5⟩

end HeadsHands

namespace HeadsHands

/-- C1: a validly constructed player starts with `health = max_health`, this
satisfies `0 ≤ health ≤ max_health`, and the invariant is preserved by every
sequence of `take_damage`, `heal` and incoming `attack_target` calls, in any
order. -/
theorem health_invariant (name : String) (atk df mh : Int) (dr : Int × Int)
    (p : Player) (h : mkPlayer name atk df mh dr = .ok p) (ops : List Op) :
    p.health = p.max_health ∧ HealthInv p.toCreature ∧
    HealthInv (runOps p ops).toCreature := by
  obtain ⟨hc, hmh, -⟩ := mkPlayer_ok name atk df mh dr p h
  have hinv : HealthInv p.toCreature := by
    rw [HealthInv, hc]
    refine ⟨?_, ?_⟩ <;> simp
    omega
  exact ⟨by rw [hc], hinv, runOps_inv p ops hinv⟩

/-- Witness for C1: a concrete construction followed by a concrete mix of
damage, heal and attack calls. -/
theorem health_invariant_witness :
    heroP.health = heroP.max_health ∧ HealthInv heroP.toCreature ∧
    HealthInv (runOps heroP
      [Op.dmg 70, Op.doHeal, Op.attacked cB hitOracle, Op.dmg 200]).toCreature :=
  health_invariant "Hero" 10 8 100 (5, 12) heroP rfl
    [Op.dmg 70, Op.doHeal, Op.attacked cB hitOracle, Op.dmg 200]

/-- C4: `take_damage(amount)` raises `ArgumentError` exactly when the amount
is negative (non-integer inputs are excluded by the `Int` type); otherwise it
sets `health = max(0, health - amount)` and changes no other field; damage 0
never raises and never changes health; damage `d ≥ health` yields exactly 0
health. -/
theorem take_damage_spec (c : Creature) (d : Int) :
    (d < 0 → take_damage c d = .error (.argumentError "dmg must be a non-negative int")) ∧
    (0 ≤ d → take_damage c d = .ok { c with health := max 0 (c.health - d) }) ∧
    (0 ≤ c.health → take_damage c 0 = .ok c) ∧
    (0 ≤ c.health → c.health ≤ d → take_damage c d = .ok { c with health := 0 }) := by
  refine ⟨fun h => ?_, fun h => take_damage_ok c d h, fun h => ?_, fun h h2 => ?_⟩
  · rw [take_damage, if_pos h]
  · rw [take_damage_ok c 0 le_rfl]
    have : max 0 (c.health - 0) = c.health := by omega
    rw [this]
  · rw [take_damage_ok c d (by omega)]
    have : max 0 (c.health - d) = 0 := by omega
    rw [this]

/-- Witness for C4 at a concrete creature and damage amount. -/
theorem take_damage_spec_witness :
    take_damage cA 150 = .ok { cA with health := 0 } :=
  (take_damage_spec cA 150).2.2.2 (by decide) (by decide)

/-- C9: any sequence of `take_damage` calls with non-negative amounts summing
to exactly `max_health` leaves the creature at `health = 0` and not alive. -/
theorem damages_summing_to_max_kill (c : Creature) (ds : List Int)
    (hc : HealthInv c) (hds : ∀ d ∈ ds, 0 ≤ d) (hsum : ds.sum = c.max_health) :
    (applyDamages c ds).health = 0 ∧ (applyDamages c ds).is_alive = false := by
  obtain ⟨h1, h2⟩ := applyDamages_health c ds hc.1 hds
  have hz : (applyDamages c ds).health = 0 := by
    rw [h1]
    have := hc.2
    omega
  refine ⟨hz, ?_⟩
  rw [Creature.is_alive, hz]
  decide

/-- Witness for C9: three hits of 30, 30 and 40 kill a 100-health creature. -/
theorem damages_summing_to_max_kill_witness :
    (applyDamages cA [30, 30, 40]).health = 0 ∧
    (applyDamages cA [30, 30, 40]).is_alive = false :=
  damages_summing_to_max_kill cA [30, 30, 40] (by constructor <;> decide)
    (by decide) (by decide)

theorem log2_eq (q : ℚ) (e : ℤ) (h1 : (2:ℚ) ^ e ≤ q) (h2 : q < (2:ℚ) ^ (e + 1)) :
    Int.log 2 q = e := by
  have hq : 0 < q := lt_of_lt_of_le (zpow_pos (by norm_num) e) h1
  have ha := (Int.zpow_le_iff_le_log (b := 2) (by norm_num) hq).mp (by exact_mod_cast h1)
  have hb := (Int.lt_zpow_iff_log_lt (b := 2) (by norm_num) hq).mp (by exact_mod_cast h2)
  omega

theorem rhe_le (x : ℚ) : (rhe x : ℚ) ≤ x + 1/2 := by
  have hf := Int.floor_le x
  have hf2 := Int.lt_floor_add_one x
  rw [rhe]
  split
  · linarith
  · split
    · push_cast
      linarith
    · split <;> push_cast <;> linarith

theorem rhe_ge (x : ℚ) : x - 1/2 ≤ (rhe x : ℚ) := by
  have hf := Int.floor_le x
  have hf2 := Int.lt_floor_add_one x
  rw [rhe]
  split
  · linarith
  · split
    · push_cast
      linarith
    · split <;> push_cast <;> linarith

/-- Nearest-even rounding sends anything strictly within half a unit of an
integer to that integer. -/
theorem rhe_eq_of_near (x : ℚ) (m : ℤ) (h1 : (m:ℚ) - 1/2 < x) (h2 : x < (m:ℚ) + 1/2) :
    rhe x = m := by
  have hf := Int.floor_le x
  have hf2 := Int.lt_floor_add_one x
  rw [rhe]
  split
  · rename_i hlt
    have ha : ⌊x⌋ < m + 1 := by
      by_contra hc
      push_neg at hc
      have : (m:ℚ) + 1 ≤ (⌊x⌋:ℚ) := by exact_mod_cast hc
      linarith
    have hb : m ≤ ⌊x⌋ := by
      by_contra hc
      push_neg at hc
      have : (⌊x⌋:ℚ) + 1 ≤ (m:ℚ) := by exact_mod_cast hc
      linarith
    omega
  · split
    · rename_i hge hgt
      push_neg at hge
      have ha : m ≤ ⌊x⌋ + 1 := by
        by_contra hc
        push_neg at hc
        have hc2 : ⌊x⌋ + 2 ≤ m := by omega
        have : (⌊x⌋:ℚ) + 2 ≤ (m:ℚ) := by exact_mod_cast hc2
        linarith
      have hb : ⌊x⌋ + 1 ≤ m := by
        by_contra hc
        push_neg at hc
        have : (m:ℚ) ≤ (⌊x⌋:ℚ) := by exact_mod_cast Int.lt_add_one_iff.mp hc
        linarith
      omega
    · rename_i hge hle
      push_neg at hge hle
      have htie : x - (⌊x⌋:ℚ) = 1/2 := le_antisymm hle hge
      have ha : m < ⌊x⌋ + 1 := by
        have : (m:ℚ) < (⌊x⌋:ℚ) + 1 := by linarith
        exact_mod_cast this
      have hb : ⌊x⌋ < m := by
        have : (⌊x⌋:ℚ) < (m:ℚ) := by linarith
        exact_mod_cast this
      omega

/-- A positive rational strictly within half a grid step of a representable
value rounds to exactly that value. -/
theorem roundDouble_eq_of_near (q : ℚ) (hq : 0 < q) (m : ℤ)
    (h1 : (m:ℚ) * 2 ^ (Int.log 2 q - 52) - 2 ^ (Int.log 2 q - 52) / 2 < q)
    (h2 : q < (m:ℚ) * 2 ^ (Int.log 2 q - 52) + 2 ^ (Int.log 2 q - 52) / 2) :
    roundDouble q = (m:ℚ) * 2 ^ (Int.log 2 q - 52) := by
  have ht : (0:ℚ) < 2 ^ (Int.log 2 q - 52) := zpow_pos (by norm_num) _
  rw [roundDouble, if_neg (not_le.mpr hq)]
  have hr : rhe (q / 2 ^ (Int.log 2 q - 52)) = m := by
    apply rhe_eq_of_near
    · rw [lt_div_iff₀ ht]
      nlinarith
    · rw [div_lt_iff₀ ht]
      nlinarith
  rw [hr]

/-- Binary64 rounding moves a positive rational by at most half a grid
step. -/
theorem roundDouble_near (q : ℚ) (hq : 0 < q) :
    q - 2 ^ (Int.log 2 q - 52) / 2 ≤ roundDouble q ∧
    roundDouble q ≤ q + 2 ^ (Int.log 2 q - 52) / 2 := by
  have ht : (0:ℚ) < 2 ^ (Int.log 2 q - 52) := zpow_pos (by norm_num) _
  rw [roundDouble, if_neg (not_le.mpr hq)]
  have h1 := rhe_ge (q / 2 ^ (Int.log 2 q - 52))
  have h2 := rhe_le (q / 2 ^ (Int.log 2 q - 52))
  have e1 := mul_le_mul_of_nonneg_right h1 ht.le
  have e2 := mul_le_mul_of_nonneg_right h2 ht.le
  rw [sub_mul, div_mul_cancel₀ _ (ne_of_gt ht)] at e1
  rw [add_mul, div_mul_cancel₀ _ (ne_of_gt ht)] at e2
  constructor <;> nlinarith

/-- Integers below `2 ^ 53` are exactly representable in binary64. -/
theorem roundDouble_int_exact (n : ℤ) (hn1 : 1 ≤ n) (hn2 : n < 2 ^ 53) :
    roundDouble (n : ℚ) = n := by
  have hq : (0:ℚ) < (n:ℚ) := by exact_mod_cast hn1
  have hL52 : Int.log 2 (n:ℚ) ≤ 52 := by
    have h53 : (n:ℚ) < ((2:ℕ):ℚ) ^ (53:ℤ) := by
      push_cast
      rw [show ((53:ℤ)) = ((53:ℕ):ℤ) by norm_num, zpow_natCast]
      exact_mod_cast hn2
    have := (Int.lt_zpow_iff_log_lt (b := 2) (by norm_num) hq).mp h53
    omega
  set L := Int.log 2 (n:ℚ) with hLdef
  have hker : ((2:ℚ)) ^ ((52 - L).toNat) * (2:ℚ) ^ (L - 52) = 1 := by
    rw [← zpow_natCast (2:ℚ) (52 - L).toNat, Int.toNat_of_nonneg (by omega)]
    rw [← zpow_add₀ (two_ne_zero) (52 - L) (L - 52)]
    norm_num
  have hm : ((n * 2 ^ (52 - L).toNat : ℤ) : ℚ) * 2 ^ (L - 52) = n := by
    push_cast
    rw [mul_assoc, hker, mul_one]
  have ht : (0:ℚ) < 2 ^ (L - 52) := zpow_pos (by norm_num) _
  have := roundDouble_eq_of_near (n:ℚ) hq (n * 2 ^ (52 - L).toNat)
    (by rw [← hLdef, hm]; linarith)
    (by rw [← hLdef, hm]; linarith)
  rw [this, ← hLdef, hm]

/-- The modelled binary64 constant for `0.3` is exactly what the rounding
model produces from the literal `3 / 10`. -/
theorem HEAL_PERCENT_double_faithful : HEAL_PERCENT_double = roundDouble (3 / 10) := by
  have hlog : Int.log 2 ((3:ℚ)/10) = -2 := by
    apply log2_eq
    · rw [show (-2 : ℤ) = -(2:ℕ) by norm_num, zpow_neg, zpow_natCast]
      norm_num
    · rw [show (-2 + 1 : ℤ) = -(1:ℕ) by norm_num, zpow_neg, zpow_natCast]
      norm_num
  have hpow : (2:ℚ) ^ (Int.log 2 ((3:ℚ)/10) - 52) = 1 / 2 ^ 54 := by
    rw [hlog, show (-2 - 52 : ℤ) = -(54:ℕ) by norm_num, zpow_neg, zpow_natCast]
    norm_num
  have := roundDouble_eq_of_near ((3:ℚ)/10) (by norm_num) 5404319552844595
    (by rw [hpow]; norm_num) (by rw [hpow]; norm_num)
  rw [this, hpow, HEAL_PERCENT_double]
  norm_num

/-- On `max_health ≤ 2 ^ 51` the binary64 computation of the heal amount
agrees with the exact floor. -/
theorem heal_amount_float_eq_floor (mh : ℤ) (h1 : 1 ≤ mh) (h2 : mh ≤ 2 ^ 51) :
    heal_amount_float mh = 3 * mh / 10 := by
  rw [heal_amount_float, roundDouble_int_exact mh h1 (by omega)]
  have hmq1 : (1:ℚ) ≤ (mh:ℚ) := by exact_mod_cast h1
  have hmq2 : (mh:ℚ) ≤ 2 ^ 51 := by exact_mod_cast h2
  have hd03 : HEAL_PERCENT_double = 3 / 10 - 1 / (5 * 2 ^ 54) := by
    rw [HEAL_PERCENT_double]
    norm_num
  have hq : (0:ℚ) < (mh:ℚ) * HEAL_PERCENT_double := by
    apply mul_pos (by linarith)
    rw [hd03]
    norm_num
  have hqid : (mh:ℚ) * HEAL_PERCENT_double = 3 * (mh:ℚ) / 10 - (mh:ℚ) / (5 * 2 ^ 54) := by
    rw [hd03]
    ring
  have hqu : (mh:ℚ) * HEAL_PERCENT_double < 2 ^ 50 := by
    rw [hqid]
    nlinarith
  have hql : (mh:ℚ) / 4 ≤ (mh:ℚ) * HEAL_PERCENT_double := by
    rw [hqid]
    nlinarith
  set L := Int.log 2 ((mh:ℚ) * HEAL_PERCENT_double) with hLdef
  have hLu := Int.lt_zpow_succ_log_self (b := 2) (by norm_num) ((mh:ℚ) * HEAL_PERCENT_double)
  have hL49 : L ≤ 49 := by
    have h50 : (mh:ℚ) * HEAL_PERCENT_double < ((2:ℕ):ℚ) ^ (50:ℤ) := by
      push_cast
      rw [show (50:ℤ) = ((50:ℕ):ℤ) by norm_num, zpow_natCast]
      exact hqu
    have := (Int.lt_zpow_iff_log_lt (b := 2) (by norm_num) hq).mp h50
    omega
  set t : ℚ := 2 ^ (L - 52) with htdef
  have ht0 : (0:ℚ) < t := zpow_pos (by norm_num) _
  have hts : t ≤ 1 / 8 := by
    rw [htdef]
    calc (2:ℚ) ^ (L - 52) ≤ (2:ℚ) ^ (-3 : ℤ) :=
          zpow_le_zpow_right₀ (by norm_num) (by omega)
      _ = 1 / 8 := by
          rw [show (-3:ℤ) = -(3:ℕ) by norm_num, zpow_neg, zpow_natCast]
          norm_num
  have htq : (mh:ℚ) * HEAL_PERCENT_double < t * 2 ^ 53 := by
    have hsplit : (2:ℚ) ^ (L + 1) = t * 2 ^ 53 := by
      rw [htdef, ← zpow_natCast (2:ℚ) 53, ← zpow_add₀ (two_ne_zero (α := ℚ))]
      congr 1
      omega
    calc (mh:ℚ) * HEAL_PERCENT_double < ((2:ℕ):ℚ) ^ (L + 1) := hLu
      _ = t * 2 ^ 53 := by push_cast; rw [hsplit]
  set F := 3 * mh / 10 with hFdef
  set r := 3 * mh % 10 with hrdef
  have hdiv : 10 * F + r = 3 * mh := Int.ediv_add_emod (3 * mh) 10
  have hr0 : 0 ≤ r := Int.emod_nonneg _ (by norm_num)
  have hr9 : r < 10 := Int.emod_lt_of_pos _ (by norm_num)
  have hdivq : 10 * (F:ℚ) + (r:ℚ) = 3 * (mh:ℚ) := by exact_mod_cast hdiv
  by_cases hrz : r = 0
  · have hFq : (F:ℚ) = 3 * (mh:ℚ) / 10 := by
      rw [hrz] at hdivq
      push_cast at hdivq
      linarith
    have hker : ((2:ℚ)) ^ ((52 - L).toNat) * (2:ℚ) ^ (L - 52) = 1 := by
      rw [← zpow_natCast (2:ℚ) (52 - L).toNat, Int.toNat_of_nonneg (by omega)]
      rw [← zpow_add₀ (two_ne_zero) (52 - L) (L - 52)]
      norm_num
    have hm : ((F * 2 ^ (52 - L).toNat : ℤ) : ℚ) * 2 ^ (L - 52) = (F:ℚ) := by
      push_cast
      rw [mul_assoc, hker, mul_one]
    have hdelta : (mh:ℚ) / (5 * 2 ^ 54) < t / 2 := by
      nlinarith
    have hnear := roundDouble_eq_of_near ((mh:ℚ) * HEAL_PERCENT_double) hq
      (F * 2 ^ (52 - L).toNat)
      (by rw [← hLdef, ← htdef, hm, hqid, ← hFq]; linarith)
      (by rw [← hLdef, ← htdef, hm, hqid, ← hFq]
          have : (0:ℚ) < (mh:ℚ) / (5 * 2 ^ 54) := by positivity
          linarith)
    rw [hnear, ← hLdef, ← htdef, hm, Int.floor_intCast]
  · have hrq1 : (1:ℚ) ≤ (r:ℚ) := by
      have : (1:ℤ) ≤ r := by omega
      exact_mod_cast this
    have hrq9 : (r:ℚ) ≤ 9 := by
      have : r ≤ (9:ℤ) := by omega
      exact_mod_cast this
    have hdelta : (mh:ℚ) / (5 * 2 ^ 54) ≤ 1 / 40 := by
      rw [div_le_div_iff₀ (by norm_num) (by norm_num)]
      nlinarith
    obtain ⟨hnl, hnu⟩ := roundDouble_near ((mh:ℚ) * HEAL_PERCENT_double) hq
    rw [← hLdef, ← htdef] at hnl hnu
    have hFl : (F:ℚ) ≤ roundDouble ((mh:ℚ) * HEAL_PERCENT_double) := by linarith
    have hFu : roundDouble ((mh:ℚ) * HEAL_PERCENT_double) < (F:ℚ) + 1 := by linarith
    rw [Int.floor_eq_iff]
    exact ⟨hFl, hFu⟩

/-- C3 counterexample: at `max_health = 8000000000000003` (a valid positive
integer) the source's binary64 computation `int(max_health * 0.3)` yields
2400000000000001, one more than `floor(max_health * 0.3) =
2400000000000000`, so `heal` does not compute the amount as exact
arithmetic on the integer `max_health`. -/
theorem heal_exact_floor_counterexample :
    heal_amount_float 8000000000000003 = 2400000000000001 ∧
    3 * (8000000000000003 : ℤ) / 10 = 2400000000000000 ∧
    ⌊(0.3 : ℚ) * ((8000000000000003 : ℤ) : ℚ)⌋ = 2400000000000000 := by
  refine ⟨?_, by decide, ?_⟩
  · rw [heal_amount_float,
      roundDouble_int_exact 8000000000000003 (by norm_num) (by norm_num)]
    push_cast
    have hq : (0:ℚ) < (8000000000000003 : ℚ) * HEAL_PERCENT_double := by
      norm_num [HEAL_PERCENT_double]
    have hlog : Int.log 2 ((8000000000000003 : ℚ) * HEAL_PERCENT_double) = 51 := by
      apply log2_eq
      · rw [show (51 : ℤ) = ((51:ℕ):ℤ) by norm_num, zpow_natCast]
        norm_num [HEAL_PERCENT_double]
      · rw [show (51 + 1 : ℤ) = ((52:ℕ):ℤ) by norm_num, zpow_natCast]
        norm_num [HEAL_PERCENT_double]
    have hpow : (2:ℚ) ^ (Int.log 2 ((8000000000000003 : ℚ) * HEAL_PERCENT_double) - 52) = 1 / 2 := by
      rw [hlog, show (51 - 52 : ℤ) = -(1:ℕ) by norm_num, zpow_neg, zpow_natCast]
      norm_num
    have := roundDouble_eq_of_near ((8000000000000003 : ℚ) * HEAL_PERCENT_double) hq
      4800000000000002
      (by rw [hpow]; norm_num [HEAL_PERCENT_double])
      (by rw [hpow]; norm_num [HEAL_PERCENT_double])
    rw [this, hpow]
    norm_num
  · push_cast
    norm_num

/-- C3 (amended): on an alive player with a heal left, the heal amount is
the source's binary64 computation `int(max_health * 0.3)`; whenever
`max_health ≤ 2 ^ 51` this equals the exact floor `⌊0.3 * max_health⌋`
(clamped up to 1 when `≤ 0`), `heal` sets `health = min(max_health,
health + amount)` and returns exactly `new_health - old_health`. -/
theorem heal_spec (p : Player) (ha : p.toCreature.is_alive = true)
    (hu : p.heals_used < MAX_HEALS) (hmh1 : 1 ≤ p.max_health)
    (hmh2 : p.max_health ≤ 2 ^ 51) :
    heal_amount_float p.max_health = 3 * p.max_health / 10 ∧
    3 * p.max_health / 10 = ⌊(0.3 : ℚ) * (p.max_health : ℚ)⌋ ∧
    ∃ restored p', heal p = .ok (restored, p') ∧
      restored = p'.health - p.health ∧
      p'.health = min p.max_health (p.health +
        (if heal_amount_float p.max_health ≤ 0 then 1
         else heal_amount_float p.max_health)) := by
  have hfl := heal_amount_float_eq_floor p.max_health hmh1 hmh2
  refine ⟨hfl, ?_, ?_⟩
  · have h3 : (0.3 : ℚ) * (p.max_health : ℚ) = ((3 * p.max_health : ℤ) : ℚ) / ((10 : ℕ) : ℚ) := by
      push_cast
      ring
    rw [h3, Rat.floor_intCast_div_natCast]
    norm_num
  · refine ⟨_, _, heal_ok p ha hu, ?_, ?_⟩
    · simp
    · rw [hfl]
      simp [heal_new_health, heal_amount]

/-- Witness for C3 at a concrete player (`max_health = 100`, amount 30). -/
theorem heal_spec_witness :
    heal_amount_float heroP.max_health = 3 * heroP.max_health / 10 ∧
    3 * heroP.max_health / 10 = ⌊(0.3 : ℚ) * (heroP.max_health : ℚ)⌋ ∧
    ∃ restored p', heal heroP = .ok (restored, p') ∧
      restored = p'.health - heroP.health ∧
      p'.health = min heroP.max_health (heroP.health +
        (if heal_amount_float heroP.max_health ≤ 0 then 1
         else heal_amount_float heroP.max_health)) :=
  heal_spec heroP (by decide) (by decide) (by decide) (by decide)

theorem MAX_HEALS_eq : MAX_HEALS = 4 := rfl

/-- After `k ≤ 4` heals from a fresh counter, the player has used `k` heals,
is still alive, and still satisfies `health ≤ max_health`. -/
theorem iterHeal_state (p : Player) (ha : p.toCreature.is_alive = true)
    (hu : p.heals_used = 0) (hinv : p.health ≤ p.max_health) :
    ∀ k : Nat, k ≤ 4 →
      (iterHeal p k).heals_used = (k : Int) ∧
      (iterHeal p k).toCreature.is_alive = true ∧
      (iterHeal p k).health ≤ (iterHeal p k).max_health := by
  intro k
  induction k with
  | zero =>
      intro _
      rw [iterHeal]
      exact ⟨by omega, ha, hinv⟩
  | succ k ih =>
      intro hk
      obtain ⟨h1, h2, h3⟩ := ih (by omega)
      have hlt : (iterHeal p k).heals_used < MAX_HEALS := by
        rw [h1, MAX_HEALS_eq]
        omega
      have halive : 0 < (iterHeal p k).health := (is_alive_true_iff _).mp h2
      have hamt := heal_amount_pos (iterHeal p k)
      rw [iterHeal, heal_ok (iterHeal p k) h2 hlt]
      refine ⟨by simp [h1], ?_, ?_⟩
      · rw [is_alive_true_iff]
        simp [heal_new_health]
        omega
      · simp [heal_new_health]

/-- C6: starting from a fresh alive player, the first four `heal` calls all
succeed (the player stays alive between them), the fifth raises
`ArgumentError` whatever the current health; `heal` also raises whenever the
player is not alive. -/
theorem heal_exactly_four (p : Player) (ha : p.toCreature.is_alive = true)
    (hu : p.heals_used = 0) (hinv : p.health ≤ p.max_health) :
    (∀ k : Nat, k < 4 → ∃ r q, heal (iterHeal p k) = .ok (r, q)) ∧
    heal (iterHeal p 4) = .error (.argumentError "no heals left") ∧
    (∀ q : Player, q.toCreature.is_alive = false →
      heal q = .error (.argumentError "dead player cannot heal")) := by
  refine ⟨?_, ?_, ?_⟩
  · intro k hk
    obtain ⟨h1, h2, h3⟩ := iterHeal_state p ha hu hinv k (by omega)
    exact ⟨_, _, heal_ok (iterHeal p k) h2 (by rw [h1, MAX_HEALS_eq]; omega)⟩
  · obtain ⟨h1, h2, h3⟩ := iterHeal_state p ha hu hinv 4 le_rfl
    rw [heal, if_neg (by simp [h2]), if_pos (by rw [h1, MAX_HEALS_eq]; omega)]
  · intro q hq
    rw [heal, if_pos (by simp [hq])]

/-- Witness for C6 at a concrete fresh player. -/
theorem heal_exactly_four_witness :
    (∀ k : Nat, k < 4 → ∃ r q, heal (iterHeal heroP k) = .ok (r, q)) ∧
    heal (iterHeal heroP 4) = .error (.argumentError "no heals left") ∧
    (∀ q : Player, q.toCreature.is_alive = false →
      heal q = .error (.argumentError "dead player cannot heal")) :=
  heal_exactly_four heroP (by decide) (by decide) (by decide)

/-- C7: a heal at full health restores 0 yet still increments `heals_used`
(so a no-op heal consumes a use, despite the interface's "positive integer"
return); every successful heal increments `heals_used` by exactly 1. -/
theorem heal_full_consumes_use (p : Player) (ha : p.toCreature.is_alive = true)
    (hu : p.heals_used < MAX_HEALS) (hfull : p.health = p.max_health) :
    (∃ p', heal p = .ok (0, p') ∧ p'.heals_used = p.heals_used + 1 ∧
      p'.health = p.max_health) ∧
    (∀ (q : Player) (r : Int) (q' : Player), heal q = .ok (r, q') →
      q'.heals_used = q.heals_used + 1) := by
  have hamt := heal_amount_pos p
  have hnh : heal_new_health p = p.max_health := by
    rw [heal_new_health, hfull]
    omega
  refine ⟨?_, ?_⟩
  · refine ⟨⟨{ p.toCreature with health := heal_new_health p }, p.heals_used + 1⟩, ?_, by simp, by simp [hnh]⟩
    rw [heal_ok p ha hu, hnh, hfull]
    simp
  · intro q r q' h
    rw [heal] at h
    split at h
    · cases h
    split at h
    · cases h
    cases h
    simp

/-- Witness for C7 at a concrete full-health player. -/
theorem heal_full_consumes_use_witness :
    (∃ p', heal heroP = .ok (0, p') ∧ p'.heals_used = heroP.heals_used + 1 ∧
      p'.health = heroP.max_health) ∧
    (∀ (q : Player) (r : Int) (q' : Player), heal q = .ok (r, q') →
      q'.heals_used = q.heals_used + 1) :=
  heal_full_consumes_use heroP (by decide) (by decide) (by decide)

/-- C5: `attack_target` raises `ArgumentError` on a dead attacker, and on a
live attacker against a dead defender, the attacker check coming first (when
both are dead the attacker's error is the one raised); a non-`Creature`
target is excluded by the argument type.  An error result carries no updated
state: in the source all three checks precede any mutation. -/
theorem attack_target_checks (self other : Creature) (o : RandOracle) :
    (self.is_alive = false →
      attack_target self other o =
        .error (.argumentError "dead creatures cannot attack")) ∧
    (self.is_alive = true → other.is_alive = false →
      attack_target self other o =
        .error (.argumentError "cannot attack a dead creature")) := by
  refine ⟨fun hs => ?_, fun hs ho => ?_⟩
  · rw [attack_target, if_pos (by simp [hs])]
  · rw [attack_target, if_neg (by simp [hs]), if_pos (by simp [ho])]

/-- Witness for C5: a dead attacker (and, for the second conjunct, a dead
defender behind a live attacker) at concrete creatures. -/
theorem attack_target_checks_witness :
    ({ cA with health := 0 }.is_alive = false →
      attack_target { cA with health := 0 } cB hitOracle =
        .error (.argumentError "dead creatures cannot attack")) ∧
    ({ cA with health := 0 }.is_alive = true → cB.is_alive = false →
      attack_target { cA with health := 0 } cB hitOracle =
        .error (.argumentError "cannot attack a dead creature")) :=
  attack_target_checks { cA with health := 0 } cB hitOracle

/-- C8: every operation leaves `name`, `attack`, `defense`, `max_health` and
`damage_range` unchanged (`heal` additionally touches only `heals_used`);
`attack_target` never changes the attacker, and a missed attack changes
nothing and returns `(false, 0)`. -/
theorem frame_conditions :
    (∀ (c : Creature) (d : Int) (c' : Creature), take_damage c d = .ok c' →
      c'.name = c.name ∧ c'.attack = c.attack ∧ c'.defense = c.defense ∧
      c'.max_health = c.max_health ∧ c'.damage_range = c.damage_range) ∧
    (∀ (p : Player) (r : Int) (p' : Player), heal p = .ok (r, p') →
      p'.name = p.name ∧ p'.attack = p.attack ∧ p'.defense = p.defense ∧
      p'.max_health = p.max_health ∧ p'.damage_range = p.damage_range) ∧
    (∀ (s t : Creature) (o : RandOracle) (res : Bool × Int) (s' t' : Creature),
      attack_target s t o = .ok (res, s', t') →
      s' = s ∧ (res.1 = false → t' = t ∧ res = (false, 0))) := by
  refine ⟨?_, ?_, ?_⟩
  · intro c d c' h
    rw [take_damage] at h
    split at h
    · cases h
    cases h
    simp
  · intro p r p' h
    rw [heal] at h
    split at h
    · cases h
    split at h
    · cases h
    cases h
    simp
  · intro s t o res s' t' h
    rw [attack_target] at h
    split at h
    · cases h
    split at h
    · cases h
    split at h
    · split at h
      · cases h
      · cases h
        exact ⟨rfl, by simp⟩
    · cases h
      exact ⟨rfl, fun _ => ⟨rfl, rfl⟩⟩

/-- Witness for C8: a concrete damaged creature and a concrete missed
attack. -/
theorem frame_conditions_witness :
    (({ cA with health := 70 } : Creature).name = cA.name ∧
      ({ cA with health := 70 } : Creature).attack = cA.attack ∧
      ({ cA with health := 70 } : Creature).defense = cA.defense ∧
      ({ cA with health := 70 } : Creature).max_health = cA.max_health ∧
      ({ cA with health := 70 } : Creature).damage_range = cA.damage_range) ∧
    (cA = cA ∧ ((false, 0).1 = false → cB = cB ∧
      ((false, 0) : Bool × Int) = (false, 0))) :=
  ⟨frame_conditions.1 cA 30 { cA with health := 70 } (by rfl),
   frame_conditions.2.2 cA cB missOracle (false, 0) cA cB (by rfl)⟩

/-- With a valid oracle every rolled die shows a value in `[1, 6]`. -/
theorem attack_rolls_mem (s t : Creature) (o : RandOracle) (hov : o.Valid)
    (r : Int) (hr : r ∈ attack_rolls s t o) : 1 ≤ r ∧ r ≤ 6 := by
  rw [attack_rolls] at hr
  obtain ⟨i, -, rfl⟩ := List.mem_map.mp hr
  exact hov.1 i

/-- C2: with stats in `[1, 30]` and both sides alive, `attack_target` rolls
exactly `dice_count = max(1, attack - defense + 1)` dice, `dice_count ∈
[1, 30]`, the attack succeeds iff some die shows 5 or 6, and on success the
drawn damage lies in the attacker's damage range, is applied to the defender
via `take_damage`, and is returned with `true`; on failure `(false, 0)` is
returned. -/
theorem attack_target_resolution (self other : Creature) (o : RandOracle)
    (hov : o.Valid)
    (hatk : check_stat self.attack = true)
    (hdef : check_stat other.defense = true)
    (hdr : check_damage_range self.damage_range = true)
    (hs : self.is_alive = true) (ho : other.is_alive = true) :
    1 ≤ dice_count self other ∧ dice_count self other ≤ 30 ∧
    (attack_rolls self other o).length = (dice_count self other).toNat ∧
    (attack_success self other o = true ↔
      ∃ r ∈ attack_rolls self other o, r = 5 ∨ r = 6) ∧
    (attack_success self other o = true →
      ∃ other', attack_target self other o =
          .ok ((true, attack_damage self o), self, other') ∧
        self.damage_range.1 ≤ attack_damage self o ∧
        attack_damage self o ≤ self.damage_range.2 ∧
        take_damage other (attack_damage self o) = .ok other') ∧
    (attack_success self other o = false →
      attack_target self other o = .ok ((false, 0), self, other)) := by
  simp only [check_stat, decide_eq_true_eq] at hatk hdef
  simp only [check_damage_range, decide_eq_true_eq] at hdr
  refine ⟨le_max_left 1 _, ?_, by simp [attack_rolls], ?_, ?_, ?_⟩
  · rw [dice_count]
    omega
  · rw [attack_success]
    simp only [List.any_eq_true, decide_eq_true_eq]
    constructor
    · rintro ⟨r, hrm, hr5⟩
      have := attack_rolls_mem self other o hov r hrm
      exact ⟨r, hrm, by omega⟩
    · rintro ⟨r, hrm, hr56⟩
      exact ⟨r, hrm, by omega⟩
  · intro hsucc
    obtain ⟨hlo, hhi⟩ := hov.2 self.damage_range.1 self.damage_range.2 hdr.2
    have hd0 : 0 ≤ attack_damage self o := by
      rw [attack_damage]
      omega
    refine ⟨{ other with health := max 0 (other.health - attack_damage self o) },
      ?_, by rw [attack_damage]; omega, by rw [attack_damage]; omega,
      take_damage_ok other _ hd0⟩
    rw [attack_target, if_neg (by simp [hs]), if_neg (by simp [ho]),
      if_pos hsucc, take_damage_ok other _ hd0]
  · intro hfail
    rw [attack_target, if_neg (by simp [hs]), if_neg (by simp [ho]),
      if_neg (by simp [hfail])]

/-- Witness for C2 at concrete creatures and an always-hitting oracle. -/
theorem attack_target_resolution_witness :
    1 ≤ dice_count cA cB ∧ dice_count cA cB ≤ 30 ∧
    (attack_rolls cA cB hitOracle).length = (dice_count cA cB).toNat ∧
    (attack_success cA cB hitOracle = true ↔
      ∃ r ∈ attack_rolls cA cB hitOracle, r = 5 ∨ r = 6) ∧
    (attack_success cA cB hitOracle = true →
      ∃ other', attack_target cA cB hitOracle =
          .ok ((true, attack_damage cA hitOracle), cA, other') ∧
        cA.damage_range.1 ≤ attack_damage cA hitOracle ∧
        attack_damage cA hitOracle ≤ cA.damage_range.2 ∧
        take_damage cB (attack_damage cA hitOracle) = .ok other') ∧
    (attack_success cA cB hitOracle = false →
      attack_target cA cB hitOracle = .ok ((false, 0), cA, cB)) :=
  attack_target_resolution cA cB hitOracle hitOracle_valid
    (by decide) (by decide) (by decide) (by decide) (by decide)

/-- C10: on a hit the returned damage is the drawn random amount, while the
defender's health drops by only `min dmg old_health`; when the drawn amount
exceeds the defender's remaining health, the returned damage is strictly
larger than the health actually removed. -/
theorem attack_damage_vs_health_loss (self other : Creature) (o : RandOracle)
    (hov : o.Valid) (hdr : check_damage_range self.damage_range = true)
    (hs : self.is_alive = true) (ho : other.is_alive = true)
    (hsucc : attack_success self other o = true) :
    ∃ dmg other',
      attack_target self other o = .ok ((true, dmg), self, other') ∧
      dmg = attack_damage self o ∧
      other.health - other'.health = min dmg other.health ∧
      (other.health < dmg → other.health - other'.health < dmg) := by
  simp only [check_damage_range, decide_eq_true_eq] at hdr
  obtain ⟨hlo, hhi⟩ := hov.2 self.damage_range.1 self.damage_range.2 hdr.2
  have hd0 : 0 ≤ attack_damage self o := by
    rw [attack_damage]
    omega
  refine ⟨attack_damage self o,
    { other with health := max 0 (other.health - attack_damage self o) },
    ?_, rfl, ?_, ?_⟩
  · rw [attack_target, if_neg (by simp [hs]), if_neg (by simp [ho]),
      if_pos hsucc, take_damage_ok other _ hd0]
  · simp only []
    omega
  · intro hlt
    simp only []
    omega

/-- Witness for C10: a 12-damage draw against a defender with 8 health
removes only 8. -/
theorem attack_damage_vs_health_loss_witness :
    ∃ dmg other',
      attack_target { cA with damage_range := (12, 12) }
          { cB with health := 8 } hitOracle = .ok ((true, dmg),
          { cA with damage_range := (12, 12) }, other') ∧
      dmg = attack_damage { cA with damage_range := (12, 12) } hitOracle ∧
      ({ cB with health := 8 } : Creature).health - other'.health =
        min dmg ({ cB with health := 8 } : Creature).health ∧
      (({ cB with health := 8 } : Creature).health < dmg →
        ({ cB with health := 8 } : Creature).health - other'.health < dmg) :=
  attack_damage_vs_health_loss { cA with damage_range := (12, 12) }
    { cB with health := 8 } hitOracle hitOracle_valid
    (by decide) (by decide) (by decide) (by decide)

end HeadsHands
